import Mathlib

/-!
Verification development for the eco_monitoring_sys record store
(`eco_monitoring_sys.py`).

The Python program is shallowly embedded as follows.

* A CSV cell is a `Val`: an integer, a piece of text, a parsed timestamp, or
  the missing marker (`na`, covering pandas `NaN`/`NaT`).  Cell-level CSV
  serialisation is abstracted away: the backing file stores the structured
  rows it would parse to.  The timestamp written by `to_list` at second
  precision and re-parsed by `pd.to_datetime` is identified with its
  whole-second value (see `PyTimestamp` and `mkRow`).
* A `Row` holds the eight columns `ID, 时间戳, 地点, 温度, pH, pm2.5, 备注,
  录入设备` in the fixed order of the source.  Numeric payloads (temperature,
  pH, pm2.5) are carried on an integer carrier: no settled claim performs
  arithmetic on them, they are only stored, copied and compared for equality.
* The process state is a `Sys`: the backing file (`none` = file absent, as
  `os.path.exists` sees it), a heap of allocated DataFrame objects, and the
  `CSVManager._data` cache as an optional heap address.  The heap makes
  Python object identity (aliasing between the cache and values returned to
  callers) observable: mutating the object at an address is `heapSet`.
* Python `str.strip`/`str.lower` are modelled on ASCII (`pyStrip`,
  `py_lower`); `pandas.Series.str.contains` (default `regex=True`, as the
  source calls it) is modelled by `reSearch`, a matcher that is exact for
  patterns built from literal characters and the `.` metacharacter.
-/

/-! ## Python string primitives -/

/-- ASCII whitespace test, modelling the characters `str.strip` removes. -/
def isPySpace (c : Char) : Bool :=
  c = ' ' || c = '\t' || c = '\n' || c = '\r'

/-- Strip leading and trailing whitespace from a character list. -/
def stripChars (l : List Char) : List Char :=
  ((l.dropWhile isPySpace).reverse.dropWhile isPySpace).reverse

/-- Python `str.strip()` on the ASCII fragment. -/
def pyStrip (s : String) : String := ⟨stripChars s.data⟩

/-- Python `str.lower()` on the ASCII fragment (`Char.toLower` per character). -/
def py_lower (s : String) : String := ⟨s.data.map Char.toLower⟩

/-! ## The regular-expression fragment used by `str.contains`

`search_by_keyword` calls `Series.str.contains(keyword)` which, with the
source's default arguments, treats the keyword as a regular expression and
tests `re.search`.  The model below is exact for patterns made of literal
characters and the `.` metacharacter (`.` matches any single character);
other metacharacters are outside the model and excluded by hypothesis where
relevant. -/

/-- Does the pattern match a prefix of the text, with `.` as wildcard? -/
def matchHere : List Char → List Char → Bool
  | [], _ => true
  | _ :: _, [] => false
  | p :: ps, c :: cs => (p = '.' || p = c) && matchHere ps cs

/-- `re.search`: does the pattern match at some position of the text? -/
def reSearch (pat : List Char) : List Char → Bool
  | [] => matchHere pat []
  | c :: cs => matchHere pat (c :: cs) || reSearch pat cs

/-- Literal prefix match: like `matchHere` but `.` has no special meaning.
This is the matcher the specification's words describe. -/
def litHere : List Char → List Char → Bool
  | [], _ => true
  | _ :: _, [] => false
  | p :: ps, c :: cs => p = c && litHere ps cs

/-- Literal substring containment, the specification's "plain substring". -/
def litSearch (pat : List Char) : List Char → Bool
  | [] => litHere pat []
  | c :: cs => litHere pat (c :: cs) || litSearch pat cs

/-- Characters Python `re` treats specially.  `\x7b`/`\x7d` are the braces. -/
def regexMetaChars : List Char :=
  ['.', '^', '$', '*', '+', '?', '[', ']', '(', ')', '|', '\\',
   Char.ofNat 123, Char.ofNat 125]

/-! ## The Record value object (`MonitorRecord`) -/

/-- A `pandas.Timestamp`: whole seconds plus a sub-second remainder.
`strftime` at format `%Y-%m-%d %H:%M:%S` renders exactly the whole-second
part, so the rendered string is identified with `sec`. -/
structure PyTimestamp where
  sec : Int
  sub : Nat
deriving DecidableEq

/-- One element of the heterogeneous Python list produced by `to_list`:
a second-precision timestamp string (identified with its value), a text
field, or a numeric payload of carrier type `F`. -/
inductive PyCell (F : Type) where
  | cts (sec : Int)
  | cstr (s : String)
  | cnum (x : F)
deriving DecidableEq

/-- The `MonitorRecord` value object.  The source's `__init__` accepts a
`record_id` argument but never stores it, so the embedded record has no
identifier field at all; the numeric carrier `F` is abstract. -/
structure MonitorRecord (F : Type) where
  timestamp : PyTimestamp
  location : String
  temperature : F
  pH : F
  pm25 : F
  remarks : String
  device : String
deriving DecidableEq

/-- `MonitorRecord.to_list`: the seven payload fields in CSV column order,
the timestamp rendered by `strftime` at second precision (dropping `sub`). -/
def MonitorRecord.to_list {F : Type} (r : MonitorRecord F) : List (PyCell F) :=
  [.cts r.timestamp.sec, .cstr r.location, .cnum r.temperature,
   .cnum r.pH, .cnum r.pm25, .cstr r.remarks, .cstr r.device]

/-- Python `float(x)`: the identity on a value that is already a float.
Parsing of numeric strings is abstracted as failure; every list produced by
`to_list` carries the numeric fields as numbers, so only the identity case
is exercised by the round-trip claim. -/
def pyFloat {F : Type} : PyCell F → Option F
  | .cnum x => some x
  | _ => none

/-- `pd.Timestamp(s)` applied to a `%Y-%m-%d %H:%M:%S` string: recovers the
whole-second value with a zero sub-second part.  Parsing of arbitrary
strings is abstracted as failure. -/
def pdTimestampOfCell {F : Type} : PyCell F → Option PyTimestamp
  | .cts s => some ⟨s, 0⟩
  | _ => none

/-- `MonitorRecord.from_list`: rebuild a record from the seven-element list;
fails when the timestamp does not parse or a numeric field is not a number.
The text positions are required to be text, which holds for every list
`to_list` produces. -/
def MonitorRecord.from_list {F : Type} :
    List (PyCell F) → Option (MonitorRecord F)
  | [ts, .cstr loc, t, p, m, .cstr rem, .cstr dev] =>
    match pdTimestampOfCell ts, pyFloat t, pyFloat p, pyFloat m with
    | some ts', some t', some p', some m' =>
      some ⟨ts', loc, t', p', m', rem, dev⟩
    | _, _, _, _ => none
  | _ => none

/-! ## Cells, rows and columns of the CSV table -/

/-- A cell value: integer, text, parsed timestamp, or the missing marker
(`na`, standing for pandas `NaN`/`NaT`). -/
inductive Val where
  | int (n : Int)
  | str (s : String)
  | time (t : Int)
  | na
deriving DecidableEq

/-- `str(v)`: the rendering `astype(str)` applies to a cell.  Timestamps
render to a digit string determined by their value (the calendar text is
abstracted); the missing marker renders as pandas renders `nan`. -/
def pyStr : Val → String
  | .int n => toString n
  | .str s => s
  | .time t => toString t
  | .na => "nan"

/-- One row of the table, with the eight columns of the source's fixed
column set `ID, 时间戳, 地点, 温度, pH, pm2.5, 备注, 录入设备`. -/
structure Row where
  cID : Val
  cTime : Val
  cLoc : Val
  cTemp : Val
  cPH : Val
  cPM : Val
  cRemarks : Val
  cDevice : Val
deriving DecidableEq

/-- The cells of a row in column order, as `iterrows` yields them. -/
def rowCells (r : Row) : List Val :=
  [r.cID, r.cTime, r.cLoc, r.cTemp, r.cPH, r.cPM, r.cRemarks, r.cDevice]

/-- The eight column positions. -/
inductive Col where
  | colID | colTime | colLoc | colTemp | colPH | colPM | colRemarks | colDevice
deriving DecidableEq

/-- The Python column-name string of each column. -/
def colName : Col → String
  | .colID => "ID"
  | .colTime => "时间戳"
  | .colLoc => "地点"
  | .colTemp => "温度"
  | .colPH => "pH"
  | .colPM => "pm2.5"
  | .colRemarks => "备注"
  | .colDevice => "录入设备"

/-- `df.columns` of a table written by this program: the header written by
`save_record_pd` (`ID` from `index_label`, then the seven payload columns). -/
def colNamesList : List String :=
  ["ID", "时间戳", "地点", "温度", "pH", "pm2.5", "备注", "录入设备"]

/-- Read one cell of a row. -/
def getCol (r : Row) : Col → Val
  | .colID => r.cID
  | .colTime => r.cTime
  | .colLoc => r.cLoc
  | .colTemp => r.cTemp
  | .colPH => r.cPH
  | .colPM => r.cPM
  | .colRemarks => r.cRemarks
  | .colDevice => r.cDevice

/-- Overwrite one cell of a row. -/
def setCol (r : Row) : Col → Val → Row
  | .colID, v => { r with cID := v }
  | .colTime, v => { r with cTime := v }
  | .colLoc, v => { r with cLoc := v }
  | .colTemp, v => { r with cTemp := v }
  | .colPH, v => { r with cPH := v }
  | .colPM, v => { r with cPM := v }
  | .colRemarks, v => { r with cRemarks := v }
  | .colDevice, v => { r with cDevice := v }

/-- `df.at[row, key] = value` for a key already known to be a column name:
write the cell whose column name equals the key. -/
def setByName (r : Row) (k : String) (v : Val) : Row :=
  if k = "ID" then setCol r .colID v
  else if k = "时间戳" then setCol r .colTime v
  else if k = "地点" then setCol r .colLoc v
  else if k = "温度" then setCol r .colTemp v
  else if k = "pH" then setCol r .colPH v
  else if k = "pm2.5" then setCol r .colPM v
  else if k = "备注" then setCol r .colRemarks v
  else if k = "录入设备" then setCol r .colDevice v
  else r

/-- The sequential `df.at` assignments of `modify_record_by_id`, one per
`(key, value)` pair of `new_data`, in iteration order. -/
def applyUpdates (r : Row) (nd : List (String × Val)) : Row :=
  nd.foldl (fun acc kv => setByName acc kv.1 kv.2) r

/-- The integer held by an `ID` cell.  In every state this program writes,
the `ID` column holds integers; the other cases are unreachable there. -/
def idInt : Val → Int
  | .int n => n
  | _ => 0

/-- The `ID` column of a list of rows, as integers. -/
def rowIDs (rows : List Row) : List Int :=
  rows.map fun r => idInt r.cID

/-- `Series.max()` over a nonempty integer column (`df['ID'].max()`).
The empty case is guarded by `df.empty` in the source and never read. -/
def pandasMax : List Int → Int
  | [] => 0
  | x :: xs => xs.foldl max x

/-- The integer list `0, 1, ..., n-1`, the id sequence the claims expect. -/
def intRange (n : Nat) : List Int :=
  (List.range n).map fun i : Nat => (i : Int)

/-! ## The process state: file, heap of DataFrame objects, cache -/

/-- A DataFrame's rows (the index of a freshly read frame is the positional
range 0..n-1, left implicit as the list position). -/
abbrev Table := List Row

/-- The backing CSV file: how many header rows it holds and its data rows. -/
structure CsvFile where
  headerCount : Nat
  rows : Table
deriving DecidableEq

/-- The process state: the backing file (`none` = absent), the heap of
allocated DataFrame objects (address = list position), and the
`CSVManager._data` cache as an optional heap address (`none` = `None`). -/
structure Sys where
  file : Option CsvFile
  heap : List Table
  cacheAddr : Option Nat
deriving DecidableEq

/-- Read the object at a heap address. -/
def heapGet : List Table → Nat → Table
  | [], _ => []
  | t :: _, 0 => t
  | _ :: h, n + 1 => heapGet h n

/-- Overwrite the object at a heap address (in-place mutation of that
DataFrame, visible through every alias of the address). -/
def heapSet : List Table → Nat → Table → List Table
  | [], _, _ => []
  | _ :: h, 0, t => t :: h
  | x :: h, n + 1, t => x :: heapSet h n t

/-- Mutate the DataFrame object at address `a` into `t`. -/
def mutateHeapAt (sys : Sys) (a : Nat) (t : Table) : Sys :=
  { sys with heap := heapSet sys.heap a t }

/-! ## `CSVManager` operations -/

/-- The row `save_record_pd` writes: the assigned `ID` plus the record's
`to_list` payload.  The second-precision timestamp string round-trips to its
whole-second value (cf. `PyTimestamp`), so the stored cell is `time sec`. -/
def mkRow (i : Int) (r : MonitorRecord Int) : Row :=
  { cID := .int i, cTime := .time r.timestamp.sec, cLoc := .str r.location,
    cTemp := .int r.temperature, cPH := .int r.pH, cPM := .int r.pm25,
    cRemarks := .str r.remarks, cDevice := .str r.device }

/-- The id `save_record_pd` assigns: `df['ID'].max() + 1` when the file
exists and has rows, `0` when the frame is empty or the file is absent. -/
def nextId : Option CsvFile → Int
  | none => 0
  | some f =>
    match f.rows with
    | [] => 0
    | x :: xs => pandasMax (rowIDs (x :: xs)) + 1

/-- `CSVManager.save_record_pd`: append one row to the CSV file, creating
the file with one header row when absent, otherwise appending without a
header (`header=not os.path.exists(...)`).  The cache is not touched. -/
def save_record_pd (sys : Sys) (r : MonitorRecord Int) : Sys :=
  match sys.file with
  | none => { sys with file := some ⟨1, [mkRow (nextId sys.file) r]⟩ }
  | some f =>
    { sys with
      file := some ⟨f.headerCount, f.rows ++ [mkRow (nextId sys.file) r]⟩ }

/-- A sequence of `save_record_pd` calls. -/
def appendMany (sys : Sys) (rs : List (MonitorRecord Int)) : Sys :=
  rs.foldl save_record_pd sys

/-- The `ID` column of the backing file, as integers. -/
def fileIntIDs (sys : Sys) : List Int :=
  match sys.file with
  | none => []
  | some f => rowIDs f.rows

/-- How many header rows the backing file holds (0 when absent). -/
def headerRows (sys : Sys) : Nat :=
  match sys.file with
  | none => 0
  | some f => f.headerCount

/-- `pd.to_datetime(col, errors='coerce')` on one timestamp cell: a parsed
timestamp stays itself, anything unparseable becomes the missing marker. -/
def coerceTimeCell : Val → Val
  | .time t => .time t
  | _ => .na

/-- Strip a text cell (`x.strip() if isinstance(x, str) else x`). -/
def stripCell : Val → Val
  | .str s => .str (pyStrip s)
  | v => v

/-- Strip every text cell of a row (`df.map`). -/
def stripRow (r : Row) : Row :=
  { cID := stripCell r.cID, cTime := stripCell r.cTime,
    cLoc := stripCell r.cLoc, cTemp := stripCell r.cTemp,
    cPH := stripCell r.cPH, cPM := stripCell r.cPM,
    cRemarks := stripCell r.cRemarks, cDevice := stripCell r.cDevice }

/-- The per-row post-processing of `read_all_records`: coerce the timestamp
column, then strip text cells. -/
def processRow (r : Row) : Row :=
  stripRow { r with cTime := coerceTimeCell r.cTime }

/-- The table a fresh disk read yields: empty when the file is absent,
otherwise the file's rows post-processed row by row. -/
def freshRows (sys : Sys) : Table :=
  match sys.file with
  | none => []
  | some f => f.rows.map processRow

/-- The disk-reading path of `read_all_records`: allocate the parsed table
as a new DataFrame object, store its address in the cache, and return the
address together with the flag that disk was read. -/
def read_disk (sys : Sys) : Sys × Nat × Bool :=
  (⟨sys.file, sys.heap ++ [freshRows sys], some sys.heap.length⟩,
   sys.heap.length, true)

/-- `CSVManager.read_all_records(refresh)`: with a warm cache and
`refresh=False` return the cached object itself (no disk access, flag
`false`); otherwise read from disk. -/
def read_all_records (sys : Sys) (refresh : Bool) : Sys × Nat × Bool :=
  match sys.cacheAddr, refresh with
  | some a, false => (sys, a, false)
  | _, _ => read_disk sys

/-- `CSVManager.save_dataframe`: rewrite the backing file entirely with the
given rows and one header row (`to_csv(index=False)`). -/
def save_dataframe (sys : Sys) (rows : Table) : Sys :=
  { sys with file := some ⟨1, rows⟩ }

/-- A default row (all cells missing), used only as the `getD` fallback. -/
instance : Inhabited Row := ⟨⟨.na, .na, .na, .na, .na, .na, .na, .na⟩⟩

/-- Failure modes of the store operations (`ValueError` in the source; the
specification's taxonomy calls them `NotFoundError` and `FieldError`). -/
inductive PyErr where
  | notFound
  | fieldError
deriving DecidableEq

instance {A B : Type} [DecidableEq A] [DecidableEq B] :
    DecidableEq (Except A B) := fun a b =>
  match a, b with
  | .error x, .error y =>
    if h : x = y then .isTrue (by rw [h]) else .isFalse (by simp [h])
  | .ok x, .ok y =>
    if h : x = y then .isTrue (by rw [h]) else .isFalse (by simp [h])
  | .error _, .ok _ => .isFalse (by simp)
  | .ok _, .error _ => .isFalse (by simp)

/-- `CSVManager.modify_record_by_id`: load fresh (so the frame's index is
the positional range 0..n-1), fail when `record_id` is not in that index,
fail when a key of `new_data` is not a column name, otherwise apply the
`df.at` assignments in place (mutating the cached object) and persist. -/
def modify_record_by_id (sys : Sys) (rid : Int) (nd : List (String × Val)) :
    Except PyErr Sys :=
  let l := read_all_records sys true
  let rows := heapGet l.1.heap l.2.1
  if 0 ≤ rid ∧ rid < (rows.length : Int) then
    if nd.all fun kv => decide (kv.1 ∈ colNamesList) then
      let rows' :=
        rows.set rid.toNat (applyUpdates (rows.getD rid.toNat default) nd)
      .ok (save_dataframe (mutateHeapAt l.1 l.2.1 rows') rows')
    else .error .fieldError
  else .error .notFound

/-- The four ways `delete_by_index` can end. -/
inductive DeleteOutcome where
  | emptyData
  | invalidIndex
  | cancelled
  | deleted (sys : Sys)
deriving DecidableEq

/-- `delete_by_index`: load fresh, report when the table is empty, report
when the typed index is not in the positional index 0..n-1, do nothing
without confirmation, otherwise `df.drop(index)` (a copy — the cached
object keeps the old rows) and persist the dropped frame. -/
def delete_by_index (sys : Sys) (idx : Int) (confirm : Bool) :
    DeleteOutcome :=
  let l := read_all_records sys true
  let rows := heapGet l.1.heap l.2.1
  if rows = [] then .emptyData
  else if 0 ≤ idx ∧ idx < (rows.length : Int) then
    if confirm then .deleted (save_dataframe l.1 (rows.eraseIdx idx.toNat))
    else .cancelled
  else .invalidIndex

/-- Missing-value-aware comparison `cell >= bound` on the timestamp column:
`NaT` (and any non-timestamp cell) compares false, as in pandas. -/
def tGe (v : Val) (bound : Int) : Bool :=
  match v with
  | .time t => bound ≤ t
  | _ => false

/-- Missing-value-aware comparison `cell <= bound` on the timestamp column. -/
def tLe (v : Val) (bound : Int) : Bool :=
  match v with
  | .time t => t ≤ bound
  | _ => false

/-- `df['地点'] == location` on one cell. -/
def eqLoc (v : Val) (loc : String) : Bool :=
  match v with
  | .str s => s = loc
  | _ => false

/-- The time-range filter of `view_records` (`if start_time and end_time`). -/
def timeFilter (st en : Option Int) (t : Table) : Table :=
  match st, en with
  | some s, some e => t.filter fun r => tGe r.cTime s && tLe r.cTime e
  | _, _ => t

/-- The location filter of `view_records` (`if location:` — the empty
string is falsy and disables the filter). -/
def locFilter (loc : Option String) (t : Table) : Table :=
  match loc with
  | none => t
  | some l => if l = "" then t else t.filter fun r => eqLoc r.cLoc l

/-- The sort step of `view_records` (`if sort_by:` — the empty string is
falsy and skips sorting; an unknown column name raises).  The pandas
`sort_values` call itself is abstracted as the function argument `sortF`:
no settled claim depends on the tie behaviour of its default quicksort. -/
def sortStep (sortF : String → Bool → Table → Table) (sortBy : Option String)
    (asc : Bool) (t : Table) : Except PyErr Table :=
  match sortBy with
  | none => .ok t
  | some f =>
    if f = "" then .ok t
    else if f ∈ colNamesList then .ok (sortF f asc t)
    else .error .fieldError

/-- `RecordViewer.view_records`: load fresh; return the loaded (cached)
object itself when it is empty; otherwise filter by time range and location,
sort if requested, and return `reset_index(drop=True).copy()` — a freshly
allocated object.  The returned heap address makes aliasing observable. -/
def view_records (sortF : String → Bool → Table → Table) (sys : Sys)
    (sortBy : Option String) (asc : Bool) (st en : Option Int)
    (loc : Option String) : Except PyErr (Sys × Nat) :=
  let l := read_all_records sys true
  let t := heapGet l.1.heap l.2.1
  if t = [] then .ok (l.1, l.2.1)
  else
    match sortStep sortF sortBy asc (locFilter loc (timeFilter st en t)) with
    | .error e => .error e
    | .ok t3 => .ok ({ l.1 with heap := l.1.heap ++ [t3] }, l.1.heap.length)

/-- `search_by_keyword`: strip and lowercase the raw keyword, reject the
empty keyword, refresh, and keep the rows where any cell's lowercased string
rendering matches the keyword under `Series.str.contains` — which, with the
source's default `regex=True`, is regular-expression search (`reSearch`). -/
def search_by_keyword (sys : Sys) (raw : String) : Option (Sys × Table) :=
  let kw := py_lower (pyStrip raw)
  if kw = "" then none
  else
    let l := read_all_records sys true
    let rows := heapGet l.1.heap l.2.1
    some (l.1,
      rows.filter fun r =>
        (rowCells r).any fun v => reSearch kw.data (py_lower (pyStr v)).data)

/-- Modelled from the spec: the search the claim describes — keep the rows
where some cell's lowercased string rendering contains the lowercased
keyword as a plain literal substring.  Stated for comparison with
`search_by_keyword`. -/
def spec_search (sys : Sys) (raw : String) : Table :=
  let kw := py_lower (pyStrip raw)
  (freshRows sys).filter fun r =>
    (rowCells r).any fun v => litSearch kw.data (py_lower (pyStr v)).data

/-! ## Concrete sample data for witnesses and counterexamples -/

/-- A sample record (the "Lake" observation of the spec's end-to-end test). -/
def recA : MonitorRecord Int := ⟨⟨100, 0⟩, "Lake", 21, 7, 35, "", "pc-01"⟩

/-- A second sample record at location "River". -/
def recB : MonitorRecord Int := ⟨⟨200, 0⟩, "River", 18, 8, 40, "", "pc-01"⟩

/-- The row the first append writes: id 0 plus `recA`'s payload. -/
def rowA : Row := mkRow 0 recA

/-- The row a second append writes: id 1 plus `recB`'s payload. -/
def rowB : Row := mkRow 1 recB

/-- A store state whose cache is warm: the state reached by loading a
one-row file into a fresh manager. -/
def sysC2 : Sys := (read_all_records ⟨some ⟨1, [rowA]⟩, [], none⟩ true).1

/-- A fresh manager over a one-row file (cold cache). -/
def sysOneRow : Sys := ⟨some ⟨1, [rowA]⟩, [], none⟩

/-- A fresh manager over a file whose two rows carry ids 0 and 2 — the
state left behind by appending three records and deleting the middle one. -/
def sysGap : Sys := ⟨some ⟨1, [mkRow 0 recA, mkRow 2 recB]⟩, [], none⟩

/-- A fresh manager over a file whose rows carry ids 0 and 1. -/
def sysTwo : Sys := ⟨some ⟨1, [rowA, rowB]⟩, [], none⟩

/-- A fresh manager over a file whose three rows carry ids 0, 1 and 2. -/
def sysThree : Sys :=
  ⟨some ⟨1, [mkRow 0 recA, mkRow 1 recB, mkRow 2 recA]⟩, [], none⟩

/-- A row whose location renders as "abc", for the search counterexample. -/
def rowSearch : Row :=
  ⟨.int 0, .time 100, .str "abc", .int 1, .int 7, .int 2, .str "", .str "pc"⟩

/-- A fresh manager over a one-row file holding `rowSearch`. -/
def sysSearch : Sys := ⟨some ⟨1, [rowSearch]⟩, [], none⟩

/-- A fresh manager with no backing file at all. -/
def sysEmpty : Sys := ⟨none, [], none⟩

/-! ## Claim theorems (C9) -/

/-- C9: round trip.  For every record whose timestamp is at second precision
(zero sub-second part), `from_list (to_list r)` reproduces every field;
the identifier is not compared because the source's `__init__` never stores
one. -/
theorem c9_roundtrip (F : Type) (r : MonitorRecord F)
    (h : r.timestamp.sub = 0) :
    MonitorRecord.from_list r.to_list = some r := by
  obtain ⟨⟨sec, sub⟩, loc, t, p, m, rem, dev⟩ := r
  simp only at h
  subst h
  rfl

/-- C9 witness: the round trip evaluated at a concrete record. -/
theorem c9_roundtrip_witness :
    (⟨⟨1718424000, 0⟩, "Lake", 21, 7, 35, "", "pc-01"⟩ :
        MonitorRecord Int).timestamp.sub = 0 ∧
      MonitorRecord.from_list
        (MonitorRecord.to_list
          (⟨⟨1718424000, 0⟩, "Lake", 21, 7, 35, "", "pc-01"⟩ :
            MonitorRecord Int)) =
        some ⟨⟨1718424000, 0⟩, "Lake", 21, 7, 35, "", "pc-01"⟩ :=
  ⟨rfl, c9_roundtrip Int ⟨⟨1718424000, 0⟩, "Lake", 21, 7, 35, "", "pc-01"⟩ rfl⟩

/-! ## Helper lemmas about `pandasMax` and id sequences -/

theorem foldl_max_init_le (l : List Int) : ∀ a : Int, a ≤ l.foldl max a := by
  induction l with
  | nil => intro a; simp
  | cons x xs ih =>
    intro a
    have h := ih (max a x)
    calc a ≤ max a x := le_max_left a x
    _ ≤ (x :: xs).foldl max a := by simpa using h

theorem pandasMax_append (x : Int) (xs : List Int) (y : Int) :
    pandasMax ((x :: xs) ++ [y]) = max (pandasMax (x :: xs)) y := by
  simp [pandasMax, List.foldl_append]

theorem intRange_succ (n : Nat) :
    intRange (n + 1) = intRange n ++ [(n : Int)] := by
  simp [intRange, List.range_succ]

theorem intRange_length (n : Nat) : (intRange n).length = n := by
  rw [intRange, List.length_map, List.length_range]

theorem pandasMax_intRange : ∀ n : Nat, 1 ≤ n →
    pandasMax (intRange n) = (n : Int) - 1 := by
  intro n
  induction n with
  | zero => intro h; omega
  | succ k ih =>
    intro _
    rcases Nat.eq_zero_or_pos k with hk | hk
    · subst hk; decide
    · obtain ⟨x, xs, hxx⟩ : ∃ x xs, intRange k = x :: xs := by
        cases h : intRange k with
        | nil =>
          have hlen := congrArg List.length h
          rw [intRange_length] at hlen
          simp at hlen
          omega
        | cons x xs => exact ⟨x, xs, rfl⟩
      rw [intRange_succ, hxx, pandasMax_append, ← hxx, ih hk]
      rw [max_eq_right (by omega)]
      push_cast
      ring

theorem appendMany_ids (rs : List (MonitorRecord Int)) :
    ∀ (sys : Sys) (hdr : Nat) (rows : Table) (k : Nat),
      sys.file = some ⟨hdr, rows⟩ → rowIDs rows = intRange k → 1 ≤ k →
      fileIntIDs (appendMany sys rs) = intRange (k + rs.length) ∧
        headerRows (appendMany sys rs) = hdr := by
  induction rs with
  | nil =>
    intro sys hdr rows k hfile hids _
    constructor
    · simp [appendMany, fileIntIDs, hfile, hids]
    · simp [appendMany, headerRows, hfile]
  | cons r rest ih =>
    intro sys hdr rows k hfile hids hk
    obtain ⟨x, xs, rfl⟩ : ∃ x xs, rows = x :: xs := by
      cases rows with
      | nil =>
        exfalso
        have hlen := congrArg List.length hids
        rw [intRange_length] at hlen
        simp [rowIDs] at hlen
        omega
      | cons x xs => exact ⟨x, xs, rfl⟩
    have hnext : nextId (some ⟨hdr, x :: xs⟩) = (k : Int) := by
      show pandasMax (rowIDs (x :: xs)) + 1 = (k : Int)
      rw [hids, pandasMax_intRange k hk]
      ring
    have hstep : (save_record_pd sys r).file =
        some ⟨hdr, (x :: xs) ++ [mkRow (k : Int) r]⟩ := by
      simp [save_record_pd, hfile, hnext]
    have hids2 : rowIDs ((x :: xs) ++ [mkRow (k : Int) r]) =
        intRange (k + 1) := by
      rw [intRange_succ, ← hids]
      simp [rowIDs, mkRow, idInt]
    have happ : appendMany sys (r :: rest) =
        appendMany (save_record_pd sys r) rest := rfl
    rw [happ]
    have hres := ih (save_record_pd sys r) hdr ((x :: xs) ++ [mkRow (k : Int) r])
      (k + 1) hstep hids2 (by omega)
    have hlen : k + 1 + rest.length = k + (r :: rest).length := by
      simp; omega
    rw [hlen] at hres
    exact hres

/-- C1: each `save_record_pd` appends exactly one row carrying
`id = max existing id + 1` (0 when the table is empty or the file absent),
writing the header exactly when the file did not yet exist; consequently a
sequence of N appends starting with no backing file assigns the ids
`0, 1, ..., N-1` with a single header row. -/
theorem c1_append_ids_contiguous (sys : Sys) (r : MonitorRecord Int)
    (heap : List Table) (cache : Option Nat)
    (recs : List (MonitorRecord Int)) :
    (match sys.file with
     | none => (save_record_pd sys r).file = some ⟨1, [mkRow 0 r]⟩
     | some f => (save_record_pd sys r).file =
         some ⟨f.headerCount, f.rows ++ [mkRow (nextId sys.file) r]⟩) ∧
    fileIntIDs (appendMany ⟨none, heap, cache⟩ recs) = intRange recs.length ∧
    headerRows (appendMany ⟨none, heap, cache⟩ recs) =
      (if recs.length = 0 then 0 else 1) := by
  refine ⟨?_, ?_⟩
  · cases hf : sys.file with
    | none => simp [save_record_pd, hf, nextId]
    | some f => simp [save_record_pd, hf]
  · cases recs with
    | nil => exact ⟨rfl, rfl⟩
    | cons r0 rest =>
      have h0 : (save_record_pd ⟨none, heap, cache⟩ r0).file =
          some ⟨1, [mkRow 0 r0]⟩ := rfl
      have hids0 : rowIDs [mkRow 0 r0] = intRange 1 := rfl
      have h := appendMany_ids rest (save_record_pd ⟨none, heap, cache⟩ r0)
        1 [mkRow 0 r0] 1 h0 hids0 (by omega)
      have happ : appendMany ⟨none, heap, cache⟩ (r0 :: rest) =
          appendMany (save_record_pd ⟨none, heap, cache⟩ r0) rest := rfl
      rw [happ]
      refine ⟨?_, ?_⟩
      · rw [h.1]
        congr 1
        simp only [List.length_cons]
        omega
      · rw [h.2]
        simp

/-! ## Heap lemmas (object identity) -/

theorem heapGet_heapSet_self : ∀ (h : List Table) (a : Nat) (t : Table),
    a < h.length → heapGet (heapSet h a t) a = t := by
  intro h
  induction h with
  | nil => intro a t ha; simp at ha
  | cons x hs ih =>
    intro a t ha
    cases a with
    | zero => rfl
    | succ n => exact ih n t (by simpa using ha)

theorem heapGet_heapSet_ne : ∀ (h : List Table) (a b : Nat) (t : Table),
    a ≠ b → heapGet (heapSet h b t) a = heapGet h a := by
  intro h
  induction h with
  | nil => intro a b t _; cases a <;> rfl
  | cons x hs ih =>
    intro a b t hab
    cases a with
    | zero => cases b with
      | zero => exact absurd rfl hab
      | succ m => rfl
    | succ n => cases b with
      | zero => rfl
      | succ m => exact ih n m t (by omega)

theorem heapGet_append_self : ∀ (h : List Table) (t : Table),
    heapGet (h ++ [t]) h.length = t := by
  intro h
  induction h with
  | nil => intro t; rfl
  | cons x hs ih => intro t; exact ih t

/-! ## Claim theorems (C10) -/

/-- C10 (implicit): with a warm cache, `read_all_records(refresh=False)`
performs no disk read, leaves the state unchanged, and returns the cached
object itself (the cache address); consequently mutating the returned
object is observed by every later `read_all_records(refresh=False)`. -/
theorem c10_warm_cache_aliasing (sys : Sys) (a : Nat)
    (hc : sys.cacheAddr = some a) (ha : a < sys.heap.length) :
    read_all_records sys false = (sys, a, false) ∧
    ∀ t : Table,
      (read_all_records (mutateHeapAt sys a t) false).2.1 = a ∧
      heapGet (read_all_records (mutateHeapAt sys a t) false).1.heap
        (read_all_records (mutateHeapAt sys a t) false).2.1 = t := by
  constructor
  · simp [read_all_records, hc]
  · intro t
    have hc2 : (mutateHeapAt sys a t).cacheAddr = some a := hc
    constructor
    · simp [read_all_records, hc2]
    · simp only [read_all_records, hc2]
      exact heapGet_heapSet_self sys.heap a t ha

/-- C10 witness: a warm one-row cache, mutated to hold `rowB`. -/
theorem c10_warm_cache_aliasing_witness :
    sysC2.cacheAddr = some 0 ∧ 0 < sysC2.heap.length ∧
    read_all_records sysC2 false = (sysC2, 0, false) ∧
    heapGet (read_all_records (mutateHeapAt sysC2 0 [rowB]) false).1.heap
      (read_all_records (mutateHeapAt sysC2 0 [rowB]) false).2.1 = [rowB] := by
  have h := c10_warm_cache_aliasing sysC2 0 (by decide) (by decide)
  exact ⟨by decide, by decide, h.1, (h.2 [rowB]).2⟩

/-! ## Claim theorems (C2) -/

/-- C2 counterexample: `save_record_pd` neither invalidates nor updates the
warm cache, so the very next `read_all_records(refresh=False)` returns the
stale one-row table, which does not contain the appended record — the file
does.  The state is the one a fresh manager reaches by loading a one-row
file. -/
theorem c2_counterexample :
    (save_record_pd sysC2 recB).file = some ⟨1, [rowA, mkRow 1 recB]⟩ ∧
    (read_all_records (save_record_pd sysC2 recB) false).2.2 = false ∧
    heapGet (read_all_records (save_record_pd sysC2 recB) false).1.heap
      (read_all_records (save_record_pd sysC2 recB) false).2.1 = [rowA] ∧
    mkRow 1 recB ∉ [rowA] ∧ processRow (mkRow 1 recB) ∉ [rowA] := by
  decide

/-- C2 amended: `save_record_pd` leaves the cache (and every heap object)
untouched; a subsequent `read_all_records(refresh=False)` therefore returns
a table containing the newly appended record exactly when the cache was
cold (`_data is None`), in which case the read reconciles with disk. -/
theorem c2_append_stale_cache (sys : Sys) (r : MonitorRecord Int) :
    (save_record_pd sys r).heap = sys.heap ∧
    (save_record_pd sys r).cacheAddr = sys.cacheAddr ∧
    (sys.cacheAddr = none →
      processRow (mkRow (nextId sys.file) r) ∈
        heapGet (read_all_records (save_record_pd sys r) false).1.heap
          (read_all_records (save_record_pd sys r) false).2.1) := by
  refine ⟨?_, ?_, ?_⟩
  · cases hf : sys.file <;> simp [save_record_pd, hf]
  · cases hf : sys.file <;> simp [save_record_pd, hf]
  · intro hc
    have hc2 : (save_record_pd sys r).cacheAddr = none := by
      cases hf : sys.file with
      | none => simpa [save_record_pd, hf] using hc
      | some f => simpa [save_record_pd, hf] using hc
    simp only [read_all_records, hc2, read_disk]
    rw [heapGet_append_self]
    cases hf : sys.file with
    | none =>
      simp [save_record_pd, hf, freshRows]
    | some f =>
      simp [save_record_pd, hf, freshRows]

/-- C2 amended witness: a cold-cache manager over a one-row file sees the
appended record on the next read. -/
theorem c2_append_stale_cache_witness :
    sysOneRow.cacheAddr = none ∧
    processRow (mkRow (nextId sysOneRow.file) recB) ∈
      heapGet (read_all_records (save_record_pd sysOneRow recB) false).1.heap
        (read_all_records (save_record_pd sysOneRow recB) false).2.1 :=
  ⟨rfl, (c2_append_stale_cache sysOneRow recB).2.2 rfl⟩

/-! ## Lemmas about cell updates and loading -/

theorem getCol_setCol_ne (r : Row) (c c' : Col) (v : Val) (h : c ≠ c') :
    getCol (setCol r c' v) c = getCol r c := by
  cases c <;> cases c' <;> first | exact absurd rfl h | rfl

theorem getCol_setCol_self (r : Row) (c : Col) (v : Val) :
    getCol (setCol r c v) c = v := by
  cases c <;> rfl

theorem getCol_setByName_self (r : Row) (c : Col) (v : Val) :
    getCol (setByName r (colName c) v) c = v := by
  cases c <;> simp [setByName, colName, getCol, setCol]

theorem getCol_setByName_ne (r : Row) (k : String) (v : Val) (c : Col)
    (h : k ≠ colName c) : getCol (setByName r k v) c = getCol r c := by
  unfold setByName
  split_ifs with h1 h2 h3 h4 h5 h6 h7 h8 <;>
    first
      | rfl
      | (refine getCol_setCol_ne r c _ v ?_
         intro hc
         subst hc
         simp [colName] at h
         simp_all)

theorem applyUpdates_not_mem : ∀ (nd : List (String × Val)) (r : Row) (c : Col),
    (∀ p ∈ nd, p.1 ≠ colName c) →
    getCol (applyUpdates r nd) c = getCol r c := by
  intro nd
  induction nd with
  | nil => intro r c _; rfl
  | cons kv rest ih =>
    intro r c h
    have h1 : kv.1 ≠ colName c := h kv (List.mem_cons_self kv rest)
    have h2 : ∀ p ∈ rest, p.1 ≠ colName c :=
      fun p hp => h p (List.mem_cons_of_mem kv hp)
    show getCol (applyUpdates (setByName r kv.1 kv.2) rest) c = getCol r c
    rw [ih (setByName r kv.1 kv.2) c h2]
    exact getCol_setByName_ne r kv.1 kv.2 c h1

theorem applyUpdates_mem :
    ∀ (nd : List (String × Val)) (r : Row) (c : Col) (v : Val),
    (nd.map Prod.fst).Nodup → (colName c, v) ∈ nd →
    getCol (applyUpdates r nd) c = v := by
  intro nd
  induction nd with
  | nil => intro r c v _ hm; simp at hm
  | cons kv rest ih =>
    intro r c v hn hm
    rw [List.map_cons, List.nodup_cons] at hn
    obtain ⟨k0, v0⟩ := kv
    rcases List.mem_cons.mp hm with heq | htail
    · have hk : k0 = colName c := (congrArg Prod.fst heq).symm
      have hv : v0 = v := (congrArg Prod.snd heq).symm
      subst hk
      subst hv
      show getCol (applyUpdates (setByName r (colName c) v0) rest) c = v0
      rw [applyUpdates_not_mem rest (setByName r (colName c) v0) c ?hrest]
      · exact getCol_setByName_self r c v0
      case hrest =>
        intro p hp hpc
        have hmem : p.1 ∈ List.map Prod.fst rest :=
          List.mem_map_of_mem Prod.fst hp
        rw [hpc] at hmem
        exact hn.1 hmem
    · show getCol (applyUpdates (setByName r k0 v0) rest) c = v
      exact ih (setByName r k0 v0) c v hn.2 htail

theorem heapSet_append_self : ∀ (h : List Table) (t t' : Table),
    heapSet (h ++ [t]) h.length t' = h ++ [t'] := by
  intro h
  induction h with
  | nil => intro t t'; rfl
  | cons x hs ih => intro t t'; exact congrArg (x :: ·) (ih t t')

theorem loaded_table (sys : Sys) :
    read_all_records sys true =
      (⟨sys.file, sys.heap ++ [freshRows sys], some sys.heap.length⟩,
        sys.heap.length, true) := by
  cases hc : sys.cacheAddr <;> simp [read_all_records, hc, read_disk]

theorem set_getD_ne : ∀ (l : Table) (i j : Nat) (v : Row), i ≠ j →
    (l.set i v).getD j default = l.getD j default := by
  intro l
  induction l with
  | nil => intro i j v _; rfl
  | cons x xs ih =>
    intro i j v hij
    cases i with
    | zero =>
      cases j with
      | zero => exact absurd rfl hij
      | succ m => rfl
    | succ n =>
      cases j with
      | zero => rfl
      | succ m => exact ih n m v (by omega)

/-! ## Claim theorems (C3) -/

/-- C3 counterexample: the claim demands failure (`FieldError`) whenever
`new_values` contains the `ID` key, but `'ID'` is one of the eight columns
of the freshly read frame, so `modify_record_by_id` accepts it and
overwrites the identifier of the addressed row (here from 0 to 99). -/
theorem c3_counterexample :
    rowA.cID = Val.int 0 ∧
    modify_record_by_id sysOneRow 0 [("ID", Val.int 99)] =
      Except.ok ⟨some ⟨1, [mkRow 99 recA]⟩, [[mkRow 99 recA]], some 0⟩ := by
  decide

/-- C3 amended: `modify_record_by_id` addresses the row by the positional
index of the freshly loaded frame (0..n-1), not by the ID column: it fails
(`ValueError`, the spec's `NotFoundError`) when `record_id` is outside that
range, fails (`FieldError`) when some key of `new_data` is not one of the
eight column names — where `'ID'` is a column and hence accepted and
mutable — and on success overwrites exactly the named fields of exactly the
addressed row, leaves every other field and row unchanged, and persists. -/
theorem c3_update_by_position (sys : Sys) (rid : Int)
    (nd : List (String × Val)) :
    (¬(0 ≤ rid ∧ rid < ((freshRows sys).length : Int)) →
      modify_record_by_id sys rid nd = .error .notFound) ∧
    ((0 ≤ rid ∧ rid < ((freshRows sys).length : Int)) →
      ¬(∀ p ∈ nd, p.1 ∈ colNamesList) →
      modify_record_by_id sys rid nd = .error .fieldError) ∧
    ((0 ≤ rid ∧ rid < ((freshRows sys).length : Int)) →
      (∀ p ∈ nd, p.1 ∈ colNamesList) →
      modify_record_by_id sys rid nd =
        .ok ⟨some ⟨1, (freshRows sys).set rid.toNat
              (applyUpdates ((freshRows sys).getD rid.toNat default) nd)⟩,
            sys.heap ++ [(freshRows sys).set rid.toNat
              (applyUpdates ((freshRows sys).getD rid.toNat default) nd)],
            some sys.heap.length⟩ ∧
      (∀ j : Nat, j ≠ rid.toNat →
        ((freshRows sys).set rid.toNat
            (applyUpdates ((freshRows sys).getD rid.toNat default) nd)).getD
            j default = (freshRows sys).getD j default) ∧
      (∀ c : Col, (∀ p ∈ nd, p.1 ≠ colName c) →
        getCol (applyUpdates ((freshRows sys).getD rid.toNat default) nd) c =
          getCol ((freshRows sys).getD rid.toNat default) c) ∧
      (∀ c : Col, ∀ v : Val,
        (nd.map Prod.fst).Nodup → (colName c, v) ∈ nd →
        getCol (applyUpdates ((freshRows sys).getD rid.toNat default) nd) c =
          v)) := by
  refine ⟨?_, ?_, ?_⟩
  · intro h
    simp only [modify_record_by_id, loaded_table, heapGet_append_self]
    rw [if_neg h]
  · intro h h2
    simp only [modify_record_by_id, loaded_table, heapGet_append_self]
    rw [if_pos h]
    have hb : ¬((nd.all fun kv => decide (kv.1 ∈ colNamesList)) = true) := by
      simpa [List.all_eq_true] using h2
    rw [if_neg hb]
  · intro h h2
    have hb : (nd.all fun kv => decide (kv.1 ∈ colNamesList)) = true := by
      simpa [List.all_eq_true] using h2
    refine ⟨?_, ?_, ?_, ?_⟩
    · simp only [modify_record_by_id, loaded_table, heapGet_append_self]
      rw [if_pos h, if_pos hb]
      simp [save_dataframe, mutateHeapAt, heapSet_append_self]
    · intro j hj
      exact set_getD_ne (freshRows sys) rid.toNat j _ (fun hh => hj hh.symm)
    · intro c hc
      exact applyUpdates_not_mem nd ((freshRows sys).getD rid.toNat default)
        c hc
    · intro c v hn hm
      exact applyUpdates_mem nd ((freshRows sys).getD rid.toNat default)
        c v hn hm

/-- C3 amended witness: an out-of-range index on a one-row file fails with
the not-found error. -/
theorem c3_update_by_position_witness :
    modify_record_by_id sysOneRow 5 [("备注", Val.str "x")] =
      .error .notFound :=
  (c3_update_by_position sysOneRow 5 [("备注", Val.str "x")]).1 (by decide)

/-! ## Claim theorems (C6) -/

theorem rowIDs_eraseIdx : ∀ (l : Table) (i : Nat),
    rowIDs (l.eraseIdx i) = (rowIDs l).eraseIdx i := by
  intro l
  induction l with
  | nil => intro i; rfl
  | cons x xs ih =>
    intro i
    cases i with
    | zero => rfl
    | succ n =>
      show rowIDs (x :: xs.eraseIdx n) = (rowIDs (x :: xs)).eraseIdx (n + 1)
      simp only [rowIDs, List.map_cons, List.eraseIdx_cons_succ]
      exact congrArg (idInt x.cID :: ·) (ih n)

/-- C6 counterexample: in the reachable state whose file rows carry the ids
0 and 2 (append three, delete the middle one), the id 1 is absent, yet
`delete_by_index 1` does not fail with the not-found error — it deletes the
row whose id is 2, because the index is interpreted positionally against
the freshly loaded frame. -/
theorem c6_counterexample :
    rowIDs [mkRow 0 recA, mkRow 2 recB] = [0, 2] ∧
    (1 : Int) ∉ rowIDs [mkRow 0 recA, mkRow 2 recB] ∧
    delete_by_index sysGap 1 true =
      .deleted ⟨some ⟨1, [mkRow 0 recA]⟩,
        [[mkRow 0 recA, mkRow 2 recB]], some 0⟩ := by
  decide

/-- C6 amended: `delete_by_index` is keyed by the positional index of the
freshly loaded frame (0..n-1), not by the stored `ID` column: it reports
empty data on an empty table, reports an invalid index outside 0..n-1,
does nothing without confirmation, and otherwise removes exactly the row at
that position, leaves the `ID` fields of all remaining rows unchanged (no
renumbering), and persists the result. -/
theorem c6_delete_by_position (sys : Sys) (idx : Int) (confirm : Bool) :
    (freshRows sys = [] → delete_by_index sys idx confirm = .emptyData) ∧
    (freshRows sys ≠ [] →
      ¬(0 ≤ idx ∧ idx < ((freshRows sys).length : Int)) →
      delete_by_index sys idx confirm = .invalidIndex) ∧
    (freshRows sys ≠ [] →
      (0 ≤ idx ∧ idx < ((freshRows sys).length : Int)) →
      confirm = false → delete_by_index sys idx confirm = .cancelled) ∧
    (freshRows sys ≠ [] →
      (0 ≤ idx ∧ idx < ((freshRows sys).length : Int)) →
      confirm = true →
      delete_by_index sys idx confirm =
        .deleted ⟨some ⟨1, (freshRows sys).eraseIdx idx.toNat⟩,
          sys.heap ++ [freshRows sys], some sys.heap.length⟩ ∧
      rowIDs ((freshRows sys).eraseIdx idx.toNat) =
        (rowIDs (freshRows sys)).eraseIdx idx.toNat) := by
  refine ⟨?_, ?_, ?_, ?_⟩
  · intro h
    simp only [delete_by_index, loaded_table, heapGet_append_self]
    rw [if_pos h]
  · intro h hr
    simp only [delete_by_index, loaded_table, heapGet_append_self]
    rw [if_neg h, if_neg hr]
  · intro h hr hc
    subst hc
    simp only [delete_by_index, loaded_table, heapGet_append_self]
    rw [if_neg h, if_pos hr, if_neg (by simp)]
  · intro h hr hc
    subst hc
    constructor
    · simp only [delete_by_index, loaded_table, heapGet_append_self]
      rw [if_neg h, if_pos hr]
      simp [save_dataframe]
    · exact rowIDs_eraseIdx (freshRows sys) idx.toNat

/-- C6 amended witness: deleting position 1 of a two-row file removes that
row and keeps the remaining id unchanged. -/
theorem c6_delete_by_position_witness :
    delete_by_index sysTwo 1 true =
      .deleted ⟨some ⟨1, [rowA]⟩, [[rowA, rowB]], some 0⟩ := by
  have h :=
    ((c6_delete_by_position sysTwo 1 true).2.2.2 (by decide) (by decide)
      rfl).1
  rw [h]
  decide

/-! ## Claim theorems (C7) -/

theorem appendMany_new_ids_gt (rs : List (MonitorRecord Int)) :
    ∀ (sys : Sys) (hdr : Nat) (rows : Table),
      sys.file = some ⟨hdr, rows⟩ → rows ≠ [] →
      ∃ newIds : List Int,
        fileIntIDs (appendMany sys rs) = rowIDs rows ++ newIds ∧
        ∀ i ∈ newIds, pandasMax (rowIDs rows) < i := by
  induction rs with
  | nil =>
    intro sys hdr rows hf _
    refine ⟨[], ?_, by simp⟩
    simp [appendMany, fileIntIDs, hf]
  | cons r rest ih =>
    intro sys hdr rows hf hne
    obtain ⟨x, xs, rfl⟩ : ∃ x xs, rows = x :: xs := by
      cases rows with
      | nil => exact absurd rfl hne
      | cons x xs => exact ⟨x, xs, rfl⟩
    have hstep : (save_record_pd sys r).file =
        some ⟨hdr, (x :: xs) ++ [mkRow (pandasMax (rowIDs (x :: xs)) + 1) r]⟩ := by
      simp [save_record_pd, hf, nextId]
    obtain ⟨newIds, hids, hgt⟩ := ih (save_record_pd sys r) hdr
      ((x :: xs) ++ [mkRow (pandasMax (rowIDs (x :: xs)) + 1) r]) hstep
      (by simp)
    have hrow : rowIDs ((x :: xs) ++ [mkRow (pandasMax (rowIDs (x :: xs)) + 1) r]) =
        rowIDs (x :: xs) ++ [pandasMax (rowIDs (x :: xs)) + 1] := by
      simp [rowIDs, mkRow, idInt]
    have hmax : pandasMax (rowIDs ((x :: xs) ++
        [mkRow (pandasMax (rowIDs (x :: xs)) + 1) r])) =
        pandasMax (rowIDs (x :: xs)) + 1 := by
      rw [hrow]
      show pandasMax ((idInt x.cID :: rowIDs xs) ++
        [pandasMax (rowIDs (x :: xs)) + 1]) = pandasMax (rowIDs (x :: xs)) + 1
      rw [pandasMax_append]
      show max (pandasMax (rowIDs (x :: xs))) (pandasMax (rowIDs (x :: xs)) + 1) =
        pandasMax (rowIDs (x :: xs)) + 1
      exact max_eq_right (by omega)
    refine ⟨(pandasMax (rowIDs (x :: xs)) + 1) :: newIds, ?_, ?_⟩
    · have happ : appendMany sys (r :: rest) =
          appendMany (save_record_pd sys r) rest := rfl
      rw [happ, hids, hrow, List.append_assoc]
      rfl
    · intro i hi
      rcases List.mem_cons.mp hi with rfl | htl
      · omega
      · have := hgt i htl
        rw [hmax] at this
        omega

/-- C7 counterexample: in the two-row state with ids 0 and 1, deleting the
row whose id is 1 and then appending once assigns the vacated id 1 again —
`save_record_pd` computes `max + 1`, and the deleted id was the maximum. -/
theorem c7_counterexample :
    rowIDs [rowA, rowB] = [0, 1] ∧
    rowB.cID = Val.int 1 ∧
    delete_by_index sysTwo 1 true =
      .deleted ⟨some ⟨1, [rowA]⟩, [[rowA, rowB]], some 0⟩ ∧
    fileIntIDs
      (save_record_pd ⟨some ⟨1, [rowA]⟩, [[rowA, rowB]], some 0⟩ recB) =
      [0, 1] := by
  decide

/-- C7 amended: an id vacated by a delete is never reused provided it was
strictly below the maximum id of the remaining rows (and some row remains):
every id assigned by any subsequent append sequence exceeds that maximum.
When the deleted id was the maximum, the next append does reuse it. -/
theorem c7_no_reuse_below_max (sys : Sys) (idx : Int)
    (recs : List (MonitorRecord Int)) (d : Int)
    (h1 : freshRows sys ≠ [])
    (h2 : 0 ≤ idx ∧ idx < ((freshRows sys).length : Int))
    (hd : d = idInt (((freshRows sys).getD idx.toNat default).cID))
    (h3 : (freshRows sys).eraseIdx idx.toNat ≠ [])
    (h4 : d < pandasMax (rowIDs ((freshRows sys).eraseIdx idx.toNat))) :
    ∃ sysD : Sys,
      delete_by_index sys idx true = .deleted sysD ∧
      ∀ i ∈ (fileIntIDs (appendMany sysD recs)).drop
          ((freshRows sys).eraseIdx idx.toNat).length, d < i ∧ i ≠ d := by
  have hdel : delete_by_index sys idx true =
      .deleted ⟨some ⟨1, (freshRows sys).eraseIdx idx.toNat⟩,
        sys.heap ++ [freshRows sys], some sys.heap.length⟩ := by
    simp only [delete_by_index, loaded_table, heapGet_append_self]
    rw [if_neg h1, if_pos h2]
    simp [save_dataframe]
  refine ⟨_, hdel, ?_⟩
  obtain ⟨newIds, hids, hgt⟩ := appendMany_new_ids_gt recs
    ⟨some ⟨1, (freshRows sys).eraseIdx idx.toNat⟩,
      sys.heap ++ [freshRows sys], some sys.heap.length⟩ 1
    ((freshRows sys).eraseIdx idx.toNat) rfl h3
  intro i hi
  rw [hids] at hi
  rw [List.drop_left' (by simp [rowIDs])] at hi
  have := hgt i hi
  constructor
  · omega
  · omega

/-- C7 amended witness: delete the id-0 row of a three-row file (remaining
max id 2), append once — the assigned id exceeds 0, so 0 is not reused. -/
theorem c7_no_reuse_below_max_witness :
    ∃ sysD : Sys,
      delete_by_index sysThree 0 true = .deleted sysD ∧
      ∀ i ∈ (fileIntIDs (appendMany sysD [recB])).drop
          ((freshRows sysThree).eraseIdx (0 : Int).toNat).length,
        (0 : Int) < i ∧ i ≠ 0 :=
  c7_no_reuse_below_max sysThree 0 [recB] 0 (by decide) (by decide)
    (by decide) (by decide) (by decide)

/-! ## Claim theorems (C5) -/

theorem matchHere_eq_litHere : ∀ (pat : List Char),
    (∀ c ∈ pat, c ≠ '.') → ∀ s, matchHere pat s = litHere pat s := by
  intro pat
  induction pat with
  | nil => intro _ s; cases s <;> rfl
  | cons p ps ih =>
    intro h s
    have hp : p ≠ '.' := h p (List.mem_cons_self p ps)
    have hps : ∀ c ∈ ps, c ≠ '.' :=
      fun c hc => h c (List.mem_cons_of_mem p hc)
    cases s with
    | nil => rfl
    | cons c cs =>
      show ((p = '.' || p = c) && matchHere ps cs) =
        ((p = c : Bool) && litHere ps cs)
      rw [ih hps cs]
      have : (p = '.' : Bool) = false := by
        simp [hp]
      rw [this, Bool.false_or]

theorem reSearch_eq_litSearch (pat : List Char)
    (h : ∀ c ∈ pat, c ≠ '.') :
    ∀ s, reSearch pat s = litSearch pat s := by
  intro s
  induction s with
  | nil =>
    show matchHere pat [] = litHere pat []
    exact matchHere_eq_litHere pat h []
  | cons c cs ih =>
    show (matchHere pat (c :: cs) || reSearch pat cs) =
      (litHere pat (c :: cs) || litSearch pat cs)
    rw [matchHere_eq_litHere pat h (c :: cs), ih]

/-- C5 counterexample: the keyword `a.c` is not a literal substring of any
field rendering of `rowSearch`, yet `search_by_keyword` returns the row,
because `Series.str.contains` interprets the keyword as a regular
expression in which `.` matches any character (here the `b` of `abc`).
The literal search the claim describes returns no row. -/
theorem c5_counterexample :
    search_by_keyword sysSearch "a.c" =
      some (⟨some ⟨1, [rowSearch]⟩, [[rowSearch]], some 0⟩, [rowSearch]) ∧
    spec_search sysSearch "a.c" = [] := by
  decide

/-- C5 amended: `search_by_keyword` matches the keyword as a regular
expression (`str.contains` with the source's default `regex=True`), not
literally; for keywords free of regular-expression metacharacters the
result coincides with the case-insensitive literal substring search the
claim describes. -/
theorem c5_search_is_regex (sys : Sys) (raw : String)
    (h1 : ∀ c ∈ (py_lower (pyStrip raw)).data, c ∉ regexMetaChars)
    (h2 : py_lower (pyStrip raw) ≠ "") :
    search_by_keyword sys raw =
      some (⟨sys.file, sys.heap ++ [freshRows sys], some sys.heap.length⟩,
        spec_search sys raw) := by
  have hnd : ∀ c ∈ (py_lower (pyStrip raw)).data, c ≠ '.' := by
    intro c hc hdot
    exact h1 c hc (by rw [hdot]; decide)
  simp only [search_by_keyword, loaded_table, heapGet_append_self]
  rw [if_neg h2]
  simp only [spec_search]
  have hpred :
      (fun r : Row => (rowCells r).any fun v =>
        reSearch (py_lower (pyStrip raw)).data (py_lower (pyStr v)).data) =
      (fun r : Row => (rowCells r).any fun v =>
        litSearch (py_lower (pyStrip raw)).data (py_lower (pyStr v)).data) := by
    funext r
    simp only [reSearch_eq_litSearch (py_lower (pyStrip raw)).data hnd]
  rw [hpred]

/-- C5 amended witness: the metacharacter-free keyword `ab` searched in the
one-row `abc` store agrees with the literal search. -/
theorem c5_search_is_regex_witness :
    search_by_keyword sysSearch "ab" =
      some (⟨sysSearch.file, sysSearch.heap ++ [freshRows sysSearch],
        some sysSearch.heap.length⟩, spec_search sysSearch "ab") :=
  c5_search_is_regex sysSearch "ab" (by decide) (by decide)

/-! ## Claim theorems (C8) -/

theorem heapGet_append_left : ∀ (h h' : List Table) (a : Nat),
    a < h.length → heapGet (h ++ h') a = heapGet h a := by
  intro h
  induction h with
  | nil => intro h' a ha; simp at ha
  | cons x hs ih =>
    intro h' a ha
    cases a with
    | zero => rfl
    | succ n => exact ih h' n (by simpa using ha)

/-- C8 counterexample: on an empty table `view_records` returns the cached
DataFrame object itself (address 0 = the cache address) instead of an
independent copy; mutating the returned object changes what the next
`read_all_records(refresh=False)` observes. -/
theorem c8_counterexample :
    view_records (fun _ _ t => t) sysEmpty none true none none none =
      .ok (⟨none, [[]], some 0⟩, 0) ∧
    (⟨none, [[]], some 0⟩ : Sys).cacheAddr = some 0 ∧
    heapGet
      (read_all_records (mutateHeapAt ⟨none, [[]], some 0⟩ 0 [rowSearch])
        false).1.heap
      (read_all_records (mutateHeapAt ⟨none, [[]], some 0⟩ 0 [rowSearch])
        false).2.1 = [rowSearch] := by
  decide

/-- C8 amended: `view_records` applies the time-range and location filters
first and the sort afterwards, and for a nonempty input returns a freshly
allocated table (an address distinct from the cache address) holding the
filtered-then-sorted rows, so mutating it leaves the cached table
unchanged; an unknown sort field raises the field error.  When the loaded
table is empty it is returned unchanged without raising — but that return
value is the cached object itself, not an independent copy. -/
theorem c8_view_filters_then_sorts (sortF : String → Bool → Table → Table)
    (sys : Sys) (sortBy : Option String) (asc : Bool) (st en : Option Int)
    (loc : Option String) :
    (freshRows sys = [] →
      view_records sortF sys sortBy asc st en loc =
        .ok (⟨sys.file, sys.heap ++ [[]], some sys.heap.length⟩,
          sys.heap.length)) ∧
    (freshRows sys ≠ [] →
      match sortStep sortF sortBy asc
          (locFilter loc (timeFilter st en (freshRows sys))) with
      | .error e => view_records sortF sys sortBy asc st en loc = .error e
      | .ok t3 =>
        view_records sortF sys sortBy asc st en loc =
          .ok (⟨sys.file, sys.heap ++ [freshRows sys] ++ [t3],
            some sys.heap.length⟩, sys.heap.length + 1) ∧
        sys.heap.length + 1 ≠ sys.heap.length ∧
        heapGet (sys.heap ++ [freshRows sys] ++ [t3])
          (sys.heap.length + 1) = t3 ∧
        (∀ t' : Table,
          heapGet (heapSet (sys.heap ++ [freshRows sys] ++ [t3])
            (sys.heap.length + 1) t') sys.heap.length = freshRows sys)) := by
  have hlen : (sys.heap ++ [freshRows sys]).length = sys.heap.length + 1 := by
    simp
  constructor
  · intro h
    simp [view_records, loaded_table, heapGet_append_self, h]
  · intro h
    cases hs : sortStep sortF sortBy asc
        (locFilter loc (timeFilter st en (freshRows sys))) with
    | error e =>
      simp only [view_records, loaded_table, heapGet_append_self]
      rw [if_neg h, hs]
    | ok t3 =>
      refine ⟨?_, by omega, ?_, ?_⟩
      · simp only [view_records, loaded_table, heapGet_append_self]
        rw [if_neg h, hs]
        simp [List.append_assoc]
      · rw [← hlen]
        exact heapGet_append_self (sys.heap ++ [freshRows sys]) t3
      · intro t'
        rw [heapGet_heapSet_ne _ _ _ _ (by omega)]
        rw [heapGet_append_left _ _ _ (by simp)]
        exact heapGet_append_self sys.heap (freshRows sys)

/-- C8 amended witness: a one-row store viewed with a sort by `温度` whose
sort function is list reversal; the result is a fresh object at address 1,
distinct from the cache at address 0. -/
theorem c8_view_filters_then_sorts_witness :
    view_records (fun _ _ t => t.reverse) sysSearch (some "温度") true
        none none none =
      .ok (⟨sysSearch.file, sysSearch.heap ++ [freshRows sysSearch] ++
        [[rowSearch]], some sysSearch.heap.length⟩,
        sysSearch.heap.length + 1) := by
  have h := (c8_view_filters_then_sorts (fun _ _ t => t.reverse) sysSearch
    (some "温度") true none none none).2 (by decide)
  exact h.1
